import Mathlib

/-!
Verification of the feature-creation core of the NBA_Betting ETL
(`src/etl/feature_creation.py`) against its specification.

The pandas pipeline is shallowly embedded: a float column is a
`List (Option ℚ)` where `none` stands for NaN/null, a merged game table is a
`List Game`, and the pandas rolling/expanding/shift operators are translated
into explicit list functions. All definitions are executable.
-/

namespace NBA

/-- Float value of a pandas column: `none` models NaN (which pandas also uses
for null). -/
abbrev FVal := Option ℚ

/-! ## `_condense_538_features` -/

/-- Shallow embedding of the row lambda in `_condense_538_features`:
`row["raptor_prob1"] if pd.notna(row["raptor_prob1"]) else
(row["carm_elo_prob1"] if pd.notna(row["carm_elo_prob1"]) else
row["elo_prob1"])`. -/
def condense538 (raptor carm elo : FVal) : FVal :=
  if raptor.isSome then raptor else if carm.isSome then carm else elo

/-! ## `_add_day_of_season` -/

/-- Shallow embedding of `calculate_day_of_season` inside `_add_day_of_season`.
Dates are day numbers (`Int`), so `(x - start_date).days` is plain
subtraction. The season-calendar collaborator (`find_season_information`
composed with the `strftime`/`strptime` round trip) is modelled as a fallible
`lookup` returning either the regular-season start date or an error of
arbitrary kind `E`; the bare `except:` clause maps every error to `None`. -/
def calculate_day_of_season {E : Type} (lookup : Int → Except E Int)
    (x : Int) : Option Int :=
  match lookup x with
  | Except.ok start => some (x - start)
  | Except.error _ => none

/-- Shallow embedding of `_add_day_of_season`: the per-row lambda applied to
the `game_datetime` column. -/
def add_day_of_season {E : Type} (lookup : Int → Except E Int)
    (dates : List Int) : List (Option Int) :=
  dates.map (calculate_day_of_season lookup)

/-! ## Theorems for `_condense_538_features` and `_add_day_of_season` -/

/-- C7: for every game row, `538_prob1` is the first non-null value in the
priority order `raptor_prob1`, `carm_elo_prob1`, `elo_prob1`; with
raptor = null, carm_elo = 0.62, elo = 0.55 the result is 0.62, and with all
three null the result is null. -/
theorem c7_first_non_null :
    (∀ raptor carm elo : FVal,
      condense538 raptor carm elo = ([raptor, carm, elo].filterMap id).head?) ∧
    condense538 none (some (62 / 100)) (some (55 / 100)) = some (62 / 100) ∧
    condense538 none none none = none := by
  refine ⟨fun raptor carm elo => ?_, rfl, rfl⟩
  cases raptor <;> cases carm <;> cases elo <;> simp [condense538]

/-- C9: `day_of_season` is computed row by row; the batch always produces one
output per input row, a row whose calendar lookup fails (with an error of any
kind) gets null, and a row whose lookup succeeds gets the day difference to
the returned season start, regardless of the other rows. -/
theorem c9_lookup_failure_null {E : Type} (lookup : Int → Except E Int)
    (dates : List Int) :
    (add_day_of_season lookup dates).length = dates.length ∧
    (∀ (i : Nat) (x : Int), dates[i]? = some x →
      (∀ e, lookup x = Except.error e →
        (add_day_of_season lookup dates)[i]? = some none) ∧
      (∀ start, lookup x = Except.ok start →
        (add_day_of_season lookup dates)[i]? = some (some (x - start)))) := by
  refine ⟨by simp [add_day_of_season], fun i x hx => ⟨fun e he => ?_, fun start hs => ?_⟩⟩
  · simp [add_day_of_season, hx, calculate_day_of_season, he]
  · simp [add_day_of_season, hx, calculate_day_of_season, hs]

/-- Example season-calendar collaborator used by the witness: day 5 has no
season information, every other day belongs to a season starting at day 2. -/
def exampleLookup : Int → Except String Int :=
  fun d => if d = 5 then Except.error "season not found" else Except.ok 2

theorem c9_lookup_failure_null_witness :
    (add_day_of_season exampleLookup [3, 5])[0]? = some (some 1) ∧
    (add_day_of_season exampleLookup [3, 5])[1]? = some none := by
  have h := c9_lookup_failure_null exampleLookup [3, 5]
  exact ⟨((h.2 0 3 rfl).2 2 rfl), ((h.2 1 5 rfl).1 "season not found" rfl)⟩

/-! ## `FeatureCreationPreMerge.full_feature_creation` -/

/-- Diagnostic printed by the dispatcher when a table has no feature-creation
method. -/
def noMethodMsg (name : String) : String :=
  "No feature creation method for table: " ++ name

/-- Python dict assignment `updated_features_tables[table_name] = ...` on an
association list whose key is already present: replace the stored value,
keep the position. -/
def setTable {T : Type} (ts : List (String × T)) (k : String) (v : T) :
    List (String × T) :=
  ts.map (fun p => if p.1 = k then (k, v) else p)

/-- One iteration of the dispatcher loop in `full_feature_creation`
(pre-merge): `getattr` is modelled by the `registry`; an unregistered name
appends a diagnostic and leaves the tables untouched (`continue`), a
registered one stores the transformed table. -/
def preMergeStep {T : Type} (registry : String → Option (T → T))
    (acc : List (String × T) × List String) (nt : String × T) :
    List (String × T) × List String :=
  match registry nt.1 with
  | none => (acc.1, acc.2 ++ [noMethodMsg nt.1])
  | some f => (setTable acc.1 nt.1 (f nt.2), acc.2)

/-- Shallow embedding of `FeatureCreationPreMerge.full_feature_creation`:
fold the dispatcher loop over the input tables, starting from the copied
dict, returning the updated tables together with the emitted diagnostics. -/
def full_feature_creation_pre {T : Type} (registry : String → Option (T → T))
    (tables : List (String × T)) : List (String × T) × List String :=
  tables.foldl (preMergeStep registry) (tables, [])

theorem map_fst_setTable {T : Type} (ts : List (String × T)) (k : String)
    (v : T) : (setTable ts k v).map Prod.fst = ts.map Prod.fst := by
  induction ts with
  | nil => rfl
  | cons p rest ih =>
    by_cases h : p.1 = k <;> simp [setTable, h] at ih ⊢ <;> exact ih

theorem lookup_setTable_of_ne {T : Type} {n k : String}
    (ts : List (String × T)) (v : T) (h : n ≠ k) :
    (setTable ts k v).lookup n = ts.lookup n := by
  induction ts with
  | nil => rfl
  | cons p rest ih =>
    obtain ⟨pk, pv⟩ := p
    by_cases hp : pk = k
    · have hnk : (n == k) = false := beq_eq_false_iff_ne.2 h
      simp only [setTable, List.map_cons, if_pos hp, List.lookup_cons, hnk]
      subst hp
      simp only [hnk]
      exact ih
    · simp only [setTable, List.map_cons, if_neg hp, List.lookup_cons]
      cases hnp : n == pk
      · exact ih
      · rfl

theorem lookup_setTable_self {T : Type} {n : String} (ts : List (String × T))
    (v : T) (h : n ∈ ts.map Prod.fst) : (setTable ts n v).lookup n = some v := by
  induction ts with
  | nil => simp at h
  | cons p rest ih =>
    obtain ⟨pk, pv⟩ := p
    by_cases hp : pk = n
    · simp [setTable, hp, List.lookup_cons]
    · simp only [List.map_cons, List.mem_cons] at h
      rcases h with h | h
      · exact absurd h.symm hp
      · have hnp : (n == pk) = false :=
          beq_eq_false_iff_ne.2 (fun hn => hp hn.symm)
        simp only [setTable, List.map_cons, if_neg hp, List.lookup_cons, hnp]
        exact ih h

theorem foldl_preMergeStep_fst_keys {T : Type}
    (registry : String → Option (T → T)) (iter : List (String × T)) :
    ∀ acc : List (String × T) × List String,
      ((iter.foldl (preMergeStep registry) acc).1).map Prod.fst =
        acc.1.map Prod.fst := by
  induction iter with
  | nil => intro acc; rfl
  | cons nt rest ih =>
    intro acc
    rw [List.foldl_cons, ih]
    cases h : registry nt.1 <;> simp [preMergeStep, h, map_fst_setTable]

theorem foldl_preMergeStep_lookup_not_key {T : Type}
    (registry : String → Option (T → T)) {n : String}
    (iter : List (String × T)) (hn : n ∉ iter.map Prod.fst) :
    ∀ acc : List (String × T) × List String,
      ((iter.foldl (preMergeStep registry) acc).1).lookup n = acc.1.lookup n := by
  induction iter with
  | nil => intro acc; rfl
  | cons nt rest ih =>
    intro acc
    simp only [List.map_cons, List.mem_cons, not_or] at hn
    rw [List.foldl_cons, ih hn.2]
    cases h : registry nt.1
    · simp [preMergeStep, h]
    · simp [preMergeStep, h, lookup_setTable_of_ne _ _ hn.1]

theorem foldl_preMergeStep_lookup_unregistered {T : Type}
    (registry : String → Option (T → T)) {n : String}
    (hreg : registry n = none) (iter : List (String × T)) :
    ∀ acc : List (String × T) × List String,
      ((iter.foldl (preMergeStep registry) acc).1).lookup n = acc.1.lookup n := by
  induction iter with
  | nil => intro acc; rfl
  | cons nt rest ih =>
    intro acc
    rw [List.foldl_cons, ih]
    cases h : registry nt.1
    · simp [preMergeStep, h]
    · have hne : n ≠ nt.1 := fun he => by rw [he, h] at hreg; exact Option.noConfusion hreg
      simp [preMergeStep, h, lookup_setTable_of_ne _ _ hne]

theorem foldl_preMergeStep_diag_mono {T : Type}
    (registry : String → Option (T → T)) {msg : String}
    (iter : List (String × T)) :
    ∀ acc : List (String × T) × List String, msg ∈ acc.2 →
      msg ∈ (iter.foldl (preMergeStep registry) acc).2 := by
  induction iter with
  | nil => intro acc h; exact h
  | cons nt rest ih =>
    intro acc h
    rw [List.foldl_cons]
    refine ih _ ?_
    cases hr : registry nt.1
    · simp [preMergeStep, hr]; exact Or.inl h
    · simpa [preMergeStep, hr] using h

theorem foldl_preMergeStep_diag_of_mem {T : Type}
    (registry : String → Option (T → T)) {nt : String × T}
    (iter : List (String × T)) (hmem : nt ∈ iter)
    (hreg : registry nt.1 = none) :
    ∀ acc : List (String × T) × List String,
      noMethodMsg nt.1 ∈ (iter.foldl (preMergeStep registry) acc).2 := by
  induction iter with
  | nil => exact absurd hmem (List.not_mem_nil nt)
  | cons hd rest ih =>
    intro acc
    rw [List.foldl_cons]
    rcases List.mem_cons.1 hmem with h | h
    · subst h
      refine foldl_preMergeStep_diag_mono registry rest _ ?_
      simp [preMergeStep, hreg]
    · exact ih h _

theorem lookup_of_mem_of_nodup_keys {T : Type} {n : String} {t : T}
    (ts : List (String × T)) (hnd : (ts.map Prod.fst).Nodup)
    (hmem : (n, t) ∈ ts) : ts.lookup n = some t := by
  induction ts with
  | nil => simp at hmem
  | cons p rest ih =>
    obtain ⟨pk, pv⟩ := p
    simp only [List.map_cons, List.nodup_cons] at hnd
    rcases List.mem_cons.1 hmem with h | h
    · rw [show n = pk from congrArg Prod.fst h, show t = pv from congrArg Prod.snd h]
      simp [List.lookup_cons]
    · have hne : (n == pk) = false := beq_eq_false_iff_ne.2 (by
        intro he
        exact hnd.1 (he ▸ List.mem_map_of_mem Prod.fst h))
      simp only [List.lookup_cons, hne]
      exact ih hnd.2 h

/-- C8: the pre-merge dispatcher keeps an output table for every input table
name; a table whose name has no registered procedure is passed through
unchanged with a diagnostic notice, and registered tables are still
transformed, so one missing procedure never aborts the rest. -/
theorem c8_dispatcher_pass_through {T : Type}
    (registry : String → Option (T → T)) (tables : List (String × T))
    (hnd : (tables.map Prod.fst).Nodup) :
    ((full_feature_creation_pre registry tables).1.map Prod.fst =
      tables.map Prod.fst) ∧
    (∀ (n : String) (t : T), (n, t) ∈ tables → registry n = none →
      (full_feature_creation_pre registry tables).1.lookup n = some t ∧
      noMethodMsg n ∈ (full_feature_creation_pre registry tables).2) ∧
    (∀ (n : String) (t : T) (f : T → T), (n, t) ∈ tables →
      registry n = some f →
      (full_feature_creation_pre registry tables).1.lookup n = some (f t)) := by
  refine ⟨foldl_preMergeStep_fst_keys registry tables (tables, []),
    fun n t hmem hreg => ⟨?_, ?_⟩, fun n t f hmem hreg => ?_⟩
  · rw [full_feature_creation_pre,
      foldl_preMergeStep_lookup_unregistered registry hreg tables (tables, [])]
    exact lookup_of_mem_of_nodup_keys tables hnd hmem
  · exact foldl_preMergeStep_diag_of_mem registry tables hmem hreg (tables, [])
  · obtain ⟨pre, post, rfl⟩ := List.append_of_mem hmem
    have hkeys : (pre ++ (n, t) :: post).map Prod.fst =
        pre.map Prod.fst ++ n :: post.map Prod.fst := by simp
    rw [hkeys] at hnd
    have hdisj := List.nodup_append.1 hnd
    have hnpre : n ∉ pre.map Prod.fst := fun h => hdisj.2.2 h (List.mem_cons_self n _)
    have hnpost : n ∉ post.map Prod.fst := (List.nodup_cons.1 hdisj.2.1).1
    rw [full_feature_creation_pre, List.foldl_append, List.foldl_cons]
    rw [foldl_preMergeStep_lookup_not_key registry post hnpost]
    simp only [preMergeStep, hreg]
    apply lookup_setTable_self
    rw [foldl_preMergeStep_fst_keys registry pre, hkeys]
    exact List.mem_append_right _ (List.mem_cons_self n _)

/-- Example registry and tables for the dispatcher witness: only table "a"
has a feature-creation method. -/
def exampleRegistry : String → Option (Nat → Nat) :=
  fun n => if n = "a" then some (fun x => x + 1) else none

theorem c8_dispatcher_pass_through_witness :
    ((full_feature_creation_pre exampleRegistry [("a", 10), ("b", 20)]).1.map
      Prod.fst = ["a", "b"]) ∧
    (full_feature_creation_pre exampleRegistry
      [("a", 10), ("b", 20)]).1.lookup "b" = some 20 ∧
    noMethodMsg "b" ∈
      (full_feature_creation_pre exampleRegistry [("a", 10), ("b", 20)]).2 ∧
    (full_feature_creation_pre exampleRegistry
      [("a", 10), ("b", 20)]).1.lookup "a" = some 11 := by
  have h := c8_dispatcher_pass_through exampleRegistry [("a", 10), ("b", 20)]
    (by decide)
  have hb := h.2.1 "b" 20 (by simp) rfl
  exact ⟨h.1, hb.1, hb.2, h.2.2 "a" 10 (fun x => x + 1) (by simp) rfl⟩

/-! ## `_zscore_and_percentiles` -/

/-- Non-null values of a float column, in order; pandas statistics skip NaN. -/
def sampleVals (s : List FVal) : List ℚ := s.filterMap id

/-- Models `Series.mean()`: mean of the non-null values, NaN when there are
none. -/
def fmean (s : List FVal) : FVal :=
  let v := sampleVals s
  if v.length = 0 then none else some (v.sum / (v.length : ℚ))

/-- Sample variance with one delta degree of freedom: the square of
`Series.std(ddof=1)`. It is NaN (`none`) when fewer than two non-null values
exist, exactly as pandas' std; the float std is its square root, so the
source guard `std == 0` holds precisely when this value is `some 0`. -/
def sampleVar (s : List FVal) : FVal :=
  let v := sampleVals s
  if v.length ≤ 1 then none
  else some ((v.map (fun x => (x - v.sum / (v.length : ℚ)) ^ 2)).sum /
    ((v.length : ℚ) - 1))

/-- Shallow embedding of `safe_zscore`: when the std is NaN (fewer than two
non-null values) every entry of `(s - mean) / std` is NaN; when the std is
exactly zero the source returns an all-`None` column; otherwise each non-null
entry is standardized. `rsqrt` abstracts the floating square root inside
`Series.std`, which has no exact rational counterpart; no claim depends on
its value. -/
def safe_zscore (rsqrt : ℚ → ℚ) (s : List FVal) : List FVal :=
  match sampleVar s with
  | none => s.map (fun _ => none)
  | some v =>
    if v = 0 then s.map (fun _ => none)
    else s.map (fun x =>
      match x, fmean s with
      | some xv, some m => some ((xv - m) / rsqrt v)
      | _, _ => none)

/-- Shallow embedding of `safe_percentile`, i.e. `Series.rank(pct=True)`:
each non-null value gets the average rank of its tie block among the non-null
values, divided by the non-null count; null entries stay NaN. -/
def safe_percentile (s : List FVal) : List FVal :=
  let v := sampleVals s
  s.map (fun x => x.map (fun xv =>
    (((v.countP (fun y => decide (y < xv))) : ℚ) +
      (((v.countP (fun y => decide (y = xv))) : ℚ) + 1) / 2) / (v.length : ℚ)))

/-- Models `.where(df[col].notnull())`: keep the transformed value only on
rows whose original value is non-null. -/
def whereNotNull (orig out : List FVal) : List FVal :=
  List.zipWith (fun o z => if o.isSome then z else none) orig out

/-- Z-score output column for one date partition, as built in
`_zscore_and_percentiles`. -/
def zscore_col (rsqrt : ℚ → ℚ) (s : List FVal) : List FVal :=
  whereNotNull s (safe_zscore rsqrt s)

/-- Percentile output column for one date partition, as built in
`_zscore_and_percentiles`. -/
def percentile_col (s : List FVal) : List FVal :=
  whereNotNull s (safe_percentile s)

theorem safe_zscore_of_const (rsqrt : ℚ → ℚ) (s : List FVal)
    (hconst : ∀ x ∈ sampleVals s, ∀ y ∈ sampleVals s, x = y) :
    safe_zscore rsqrt s = s.map (fun _ => none) := by
  rcases hv : sampleVar s with _ | v
  · rw [safe_zscore, hv]
  · have hzero : v = 0 := by
      rw [sampleVar] at hv
      by_cases hlen : (sampleVals s).length ≤ 1
      · simp [hlen] at hv
      · simp only [hlen, if_false, Option.some.injEq] at hv
        have hne : sampleVals s ≠ [] := by
          intro h0; rw [h0] at hlen; exact hlen (by simp)
        obtain ⟨a, ha⟩ := List.exists_mem_of_ne_nil _ hne
        have hrep : sampleVals s =
            List.replicate (sampleVals s).length a :=
          List.eq_replicate_of_mem (fun b hb => hconst b hb a ha)
        have hlenpos : (0 : ℚ) < ((sampleVals s).length : ℚ) := by
          have : 0 < (sampleVals s).length := List.length_pos.2 hne
          exact_mod_cast this
        have hsum : (sampleVals s).sum = ((sampleVals s).length : ℚ) * a := by
          rw [hrep, List.sum_replicate]
          simp [nsmul_eq_mul]
        have hmean : (sampleVals s).sum / ((sampleVals s).length : ℚ) = a := by
          rw [hsum, mul_comm, mul_div_assoc, div_self (ne_of_gt hlenpos), mul_one]
      -- each squared deviation is zero, so the whole sum is zero
        rw [← hv, hrep]
        rw [List.map_replicate, List.sum_replicate]
        rw [show (a - (List.replicate (sampleVals s).length a).sum /
            (((List.replicate (sampleVals s).length a).length : ℚ))) ^ 2 = 0 by
          rw [List.length_replicate, ← hrep, hmean]; ring]
        simp
    rw [safe_zscore, hv]
    simp [hzero]

/-- C6: on a date partition whose non-null values are constant (including a
singleton or empty group), the z-score column is null on every row — the
zero-std guard or the NaN std makes the whole column null, no division by a
zero std is ever evaluated — while the percentile column assigns every
non-null row a well-defined value in [0, 1]. -/
theorem c6_zero_variance_safe (rsqrt : ℚ → ℚ) (s : List FVal)
    (hconst : ∀ x ∈ sampleVals s, ∀ y ∈ sampleVals s, x = y) :
    (∀ o ∈ zscore_col rsqrt s, o = none) ∧
    (∀ (i : Nat) (xv : ℚ), s[i]? = some (some xv) →
      ∃ p : ℚ, (percentile_col s)[i]? = some (some p) ∧ 0 ≤ p ∧ p ≤ 1) := by
  constructor
  · intro o ho
    rw [zscore_col, safe_zscore_of_const rsqrt s hconst] at ho
    clear hconst
    induction s with
    | nil => simp [whereNotNull] at ho
    | cons x rest ih =>
      simp only [whereNotNull, List.map_cons, List.zipWith_cons_cons,
        List.mem_cons] at ho
      rcases ho with ho | ho
      · rw [ho]; cases x <;> simp
      · exact ih ho
  · intro i xv hx
    have hmem : (some xv) ∈ s := by
      have := List.getElem?_eq_some.1 hx
      obtain ⟨hlt, hval⟩ := this
      exact hval ▸ List.getElem_mem hlt
    have hvmem : xv ∈ sampleVals s := by
      rw [sampleVals, List.mem_filterMap]
      exact ⟨some xv, hmem, rfl⟩
    have hne : sampleVals s ≠ [] := fun h0 => by simp [h0] at hvmem
    have hnpos : 0 < (sampleVals s).length := List.length_pos.2 hne
    have hcast : (1 : ℚ) ≤ ((sampleVals s).length : ℚ) := by exact_mod_cast hnpos
    have hclt : (sampleVals s).countP (fun y => decide (y < xv)) = 0 := by
      rw [List.countP_eq_zero]
      intro y hy
      have := hconst y hy xv hvmem
      simp [this]
    have hceq : ((sampleVals s).countP (fun y => decide (y = xv))) =
        (sampleVals s).length := by
      rw [List.countP_eq_length]
      intro y hy
      simp [hconst y hy xv hvmem]
    refine ⟨(((sampleVals s).length : ℚ) + 1) / 2 / ((sampleVals s).length : ℚ),
      ?_, ?_, ?_⟩
    · have hps : (safe_percentile s)[i]? = some (some
          ((((sampleVals s).length : ℚ) + 1) / 2 / ((sampleVals s).length : ℚ))) := by
        rw [safe_percentile]
        simp only [List.getElem?_map, hx, Option.map_some', hclt, hceq]
        norm_num
      rw [percentile_col, whereNotNull, List.getElem?_zipWith, hx, hps]
      rfl
    · have h2 : (0 : ℚ) < ((sampleVals s).length : ℚ) :=
        lt_of_lt_of_le one_pos hcast
      positivity
    · have h2 : (0 : ℚ) < ((sampleVals s).length : ℚ) :=
        lt_of_lt_of_le one_pos hcast
      rw [div_le_one h2, div_le_iff₀ (by norm_num : (0:ℚ) < 2)]
      linarith

/-- Example constant partition for the C6 witness: three rows, one null. -/
def examplePartition : List FVal := [some 4, none, some 4]

theorem c6_zero_variance_safe_witness :
    (∀ o ∈ zscore_col id examplePartition, o = none) ∧
    ∃ p : ℚ, (percentile_col examplePartition)[0]? = some (some p) ∧
      0 ≤ p ∧ p ≤ 1 := by
  have h := c6_zero_variance_safe id examplePartition (by decide)
  exact ⟨h.1, h.2 0 4 rfl⟩

/-! ## Game model and pandas column operators -/

/-- One row of the merged game table. Dates are day numbers. -/
structure Game where
  date : Int
  season : Int
  home : String
  away : String
  homeScore : Int
  awayScore : Int
deriving DecidableEq

/-- Sort key of `df.sort_values(["season", "game_datetime"])`. -/
def gameLE (a b : Game) : Prop :=
  a.season < b.season ∨ (a.season = b.season ∧ a.date ≤ b.date)

instance : DecidableRel gameLE := fun a b => by
  unfold gameLE; infer_instance

instance : IsTotal Game gameLE :=
  ⟨by intro a b; unfold gameLE; omega⟩

instance : IsTrans Game gameLE :=
  ⟨by intro a b c; unfold gameLE; omega⟩

/-- Chronological game list of team `t` in season `s`: the table is sorted by
(season, datetime), the season partition is selected, then the rows where the
team plays home or away, mirroring `_calculate_team_performance_metrics`. -/
def teamGames (games : List Game) (s : Int) (t : String) : List Game :=
  ((games.insertionSort gameLE).filter (fun g => decide (g.season = s))).filter
    (fun g => decide (g.home = t) || decide (g.away = t))

/-- Column `is_win` of the team view: the team's score exceeds the
opponent's. -/
def isWin (g : Game) (t : String) : Bool :=
  (decide (g.home = t) && decide (g.awayScore < g.homeScore)) ||
    (decide (g.away = t) && decide (g.homeScore < g.awayScore))

/-- Column `performance`: win maps to `1`, loss to `-1`. -/
def performance (g : Game) (t : String) : Int :=
  if isWin g t then 1 else -1

/-- Column `point_diff`: own score minus opponent score. -/
def pointDiff (g : Game) (t : String) : Int :=
  if g.home = t then g.homeScore - g.awayScore else g.awayScore - g.homeScore

/-- Models `Series.shift(1)`: a leading NaN, every value moves one row down,
the last value drops off. -/
def shift1 {α : Type} (xs : List (Option α)) : List (Option α) :=
  (none :: xs).take xs.length

/-- Window of (at most) the last `w` entries ending at row `i`, as read by
`Series.rolling(window=w)`. -/
def windowEnd {α : Type} (xs : List α) (w i : Nat) : List α :=
  (xs.take (i + 1)).drop (i + 1 - w)

/-- Models `Series.rolling(window=w, min_periods=1).sum()` on an integer
column: every row has at least one period available, so no NaN appears. -/
def rollingSumMin1 (w : Nat) (xs : List Int) : List Int :=
  (List.range xs.length).map (fun i => (windowEnd xs w i).sum)

/-- Mean of an integer window as a rational. -/
def meanI (l : List Int) : ℚ :=
  ((l.sum : Int) : ℚ) / (l.length : ℚ)

/-- Models `Series.rolling(window=w).mean()` with the default
`min_periods = w`: NaN until a full window exists. -/
def rollingMeanFull (w : Nat) (xs : List Int) : List (Option ℚ) :=
  (List.range xs.length).map
    (fun i => if w ≤ i + 1 then some (meanI (windowEnd xs w i)) else none)

/-- Models `Series.expanding().mean()`: mean of all rows up to and including
the current one. -/
def expandingMean (xs : List Int) : List ℚ :=
  (List.range xs.length).map (fun i => meanI (xs.take (i + 1)))

/-- Models `Series.fillna(z)`. -/
def fillna {α : Type} (z : α) (xs : List (Option α)) : List α :=
  xs.map (fun o => o.getD z)

/-- Column `last_5_games_result`:
`performance.rolling(window=5, min_periods=1).sum().shift(1).fillna(0)`. -/
def last5Col (ps : List Int) : List Int :=
  fillna 0 (shift1 ((rollingSumMin1 5 ps).map some))

/-- Streak update of the source loop: reset on zero, extend on equal sign,
reset to the new performance otherwise. -/
def streakStep (s p : Int) : Int :=
  if s = 0 then p else if s.sign = p.sign then s + p else p

/-- Column `streak`: the loop appends the carried state before processing
each game, so the column is the scan of `streakStep` from `0` without its
final state. -/
def streakCol (ps : List Int) : List Int :=
  (ps.scanl streakStep 0).take ps.length

/-- Column `win_pct`: `performance.expanding().mean().shift(1)`, with no
fill, so the first game stays null. -/
def winPctCol (ps : List Int) : List (Option ℚ) :=
  shift1 ((expandingMean ps).map some)

/-- Column `avg_point_diff`:
`point_diff.expanding().mean().shift(1).fillna(0)`. -/
def avgPdCol (pds : List Int) : List ℚ :=
  fillna 0 (shift1 ((expandingMean pds).map some))

/-- Column `avg_point_diff_last_5`:
`point_diff.rolling(window=5).mean().shift(1).fillna(0)`. -/
def avgPd5Col (pds : List Int) : List ℚ :=
  fillna 0 (shift1 (rollingMeanFull 5 pds))

/-- Rollup feature record attributed to a team at one of its games. -/
structure TeamMetrics where
  last5 : Int
  streak : Int
  winPct : Option ℚ
  avgPointDiff : ℚ
  avgPointDiffLast5 : ℚ
deriving DecidableEq

/-- Per-game rollup features of team `t` in season `s`, index-aligned with
`teamGames games s t`; assembles the five columns computed in
`_calculate_team_performance_metrics`. -/
def teamFeatures (games : List Game) (s : Int) (t : String) :
    List TeamMetrics :=
  let seq := teamGames games s t
  let ps := seq.map (fun g => performance g t)
  let pds := seq.map (fun g => pointDiff g t)
  (List.range seq.length).map (fun i =>
    { last5 := (last5Col ps).getD i 0
      streak := (streakCol ps).getD i 0
      winPct := (winPctCol ps).getD i none
      avgPointDiff := (avgPdCol pds).getD i 0
      avgPointDiffLast5 := (avgPd5Col pds).getD i 0 })

/-! ## Index characterizations of the column operators -/

theorem length_shift1 {α : Type} (xs : List (Option α)) :
    (shift1 xs).length = xs.length := by
  simp [shift1]

theorem shift1_getElem?_zero {α : Type} (xs : List (Option α))
    (h : 0 < xs.length) : (shift1 xs)[0]? = some none := by
  rw [shift1, List.getElem?_take_of_lt h]
  simp

theorem shift1_getElem?_succ {α : Type} (xs : List (Option α)) (i : Nat)
    (h : i + 1 < xs.length) : (shift1 xs)[i + 1]? = xs[i]? := by
  rw [shift1, List.getElem?_take_of_lt h, List.getElem?_cons_succ]

theorem rollingSumMin1_getElem? (w : Nat) (xs : List Int) (i : Nat)
    (h : i < xs.length) :
    (rollingSumMin1 w xs)[i]? = some ((windowEnd xs w i).sum) := by
  rw [rollingSumMin1, List.getElem?_map, List.getElem?_range h]
  rfl

theorem last5Col_getElem? (ps : List Int) (i : Nat) (h : i < ps.length) :
    (last5Col ps)[i]? = some (((ps.take i).drop (i - 5)).sum) := by
  rw [last5Col, fillna, List.getElem?_map]
  have hlen : ((rollingSumMin1 5 ps).map some).length = ps.length := by
    simp [rollingSumMin1]
  cases i with
  | zero =>
    rw [shift1_getElem?_zero _ (by rw [hlen]; exact h)]
    simp
  | succ j =>
    rw [shift1_getElem?_succ _ j (by rw [hlen]; exact h), List.getElem?_map,
      rollingSumMin1_getElem? 5 ps j (by omega)]
    rfl

theorem scanl_getElem? {α β : Type} (f : β → α → β) (b : β) (l : List α)
    (i : Nat) (h : i ≤ l.length) :
    (l.scanl f b)[i]? = some ((l.take i).foldl f b) := by
  induction l generalizing b i with
  | nil =>
    have h0 : i = 0 := Nat.le_zero.1 (by simpa using h)
    subst h0
    simp [List.scanl_nil]
  | cons x rest ih =>
    cases i with
    | zero => simp [List.scanl_cons]
    | succ j =>
      rw [List.scanl_cons, List.singleton_append, List.getElem?_cons_succ,
        ih (f b x) j (by simpa using h)]
      rfl

theorem streakCol_getElem? (ps : List Int) (i : Nat) (h : i < ps.length) :
    (streakCol ps)[i]? = some ((ps.take i).foldl streakStep 0) := by
  rw [streakCol, List.getElem?_take_of_lt h,
    scanl_getElem? streakStep 0 ps i (le_of_lt h)]

theorem expandingMean_getElem? (xs : List Int) (i : Nat) (h : i < xs.length) :
    (expandingMean xs)[i]? = some (meanI (xs.take (i + 1))) := by
  rw [expandingMean, List.getElem?_map, List.getElem?_range h]
  rfl

theorem winPctCol_getElem?_zero (ps : List Int) (h : 0 < ps.length) :
    (winPctCol ps)[0]? = some none := by
  rw [winPctCol]
  exact shift1_getElem?_zero _ (by simpa [expandingMean] using h)

theorem winPctCol_getElem?_succ (ps : List Int) (j : Nat)
    (h : j + 1 < ps.length) :
    (winPctCol ps)[j + 1]? = some (some (meanI (ps.take (j + 1)))) := by
  rw [winPctCol, shift1_getElem?_succ _ j (by simpa [expandingMean] using h),
    List.getElem?_map, expandingMean_getElem? ps j (by omega)]
  rfl

theorem avgPdCol_getElem?_zero (pds : List Int) (h : 0 < pds.length) :
    (avgPdCol pds)[0]? = some 0 := by
  rw [avgPdCol, fillna, List.getElem?_map,
    shift1_getElem?_zero _ (by simpa [expandingMean] using h)]
  rfl

theorem avgPdCol_getElem?_succ (pds : List Int) (j : Nat)
    (h : j + 1 < pds.length) :
    (avgPdCol pds)[j + 1]? = some (meanI (pds.take (j + 1))) := by
  rw [avgPdCol, fillna, List.getElem?_map,
    shift1_getElem?_succ _ j (by simpa [expandingMean] using h),
    List.getElem?_map, expandingMean_getElem? pds j (by omega)]
  rfl

theorem rollingMeanFull_getElem? (w : Nat) (xs : List Int) (i : Nat)
    (h : i < xs.length) :
    (rollingMeanFull w xs)[i]? =
      some (if w ≤ i + 1 then some (meanI (windowEnd xs w i)) else none) := by
  rw [rollingMeanFull, List.getElem?_map, List.getElem?_range h]
  rfl

theorem avgPd5Col_getElem?_zero (pds : List Int) (h : 0 < pds.length) :
    (avgPd5Col pds)[0]? = some 0 := by
  rw [avgPd5Col, fillna, List.getElem?_map,
    shift1_getElem?_zero _ (by simpa [rollingMeanFull] using h)]
  rfl

theorem avgPd5Col_getElem?_succ (pds : List Int) (j : Nat)
    (h : j + 1 < pds.length) :
    (avgPd5Col pds)[j + 1]? = some (if 5 ≤ j + 1 then
      meanI ((pds.take (j + 1)).drop (j + 1 - 5)) else 0) := by
  rw [avgPd5Col, fillna, List.getElem?_map,
    shift1_getElem?_succ _ j (by simpa [rollingMeanFull] using h),
    rollingMeanFull_getElem? 5 pds j (by omega)]
  by_cases h5 : 5 ≤ j + 1 <;> simp [h5, windowEnd]

/-- Master characterization: the feature record of team `t` at the `i`-th of
its season-`s` games is built only from the strictly prior games
`(teamGames games s t).take i`. -/
theorem teamFeatures_getElem? (games : List Game) (s : Int) (t : String)
    (i : Nat) (h : i < (teamGames games s t).length) :
    (teamFeatures games s t)[i]? = some
      { last5 := ((((teamGames games s t).take i).drop (i - 5)).map
          (fun g => performance g t)).sum
        streak := (((teamGames games s t).take i).map
          (fun g => performance g t)).foldl streakStep 0
        winPct := if i = 0 then none else some (meanI
          (((teamGames games s t).take i).map (fun g => performance g t)))
        avgPointDiff := if i = 0 then 0 else meanI
          (((teamGames games s t).take i).map (fun g => pointDiff g t))
        avgPointDiffLast5 := if 5 ≤ i then meanI
          ((((teamGames games s t).take i).drop (i - 5)).map
            (fun g => pointDiff g t)) else 0 } := by
  have hps : ((teamGames games s t).map (fun g => performance g t)).length =
      (teamGames games s t).length := List.length_map _ _
  have hpds : ((teamGames games s t).map (fun g => pointDiff g t)).length =
      (teamGames games s t).length := List.length_map _ _
  simp only [teamFeatures]
  rw [List.getElem?_map, List.getElem?_range h, Option.map_some']
  congr 1
  simp only [TeamMetrics.mk.injEq, List.getD_eq_getElem?_getD]
  refine ⟨?_, ?_, ?_, ?_, ?_⟩
  · rw [last5Col_getElem? _ i (by rw [hps]; exact h)]
    rw [List.map_drop, List.map_take]
    rfl
  · rw [streakCol_getElem? _ i (by rw [hps]; exact h)]
    rw [List.map_take]
    rfl
  · cases i with
    | zero => rw [winPctCol_getElem?_zero _ (by rw [hps]; exact h)]; rfl
    | succ j =>
      rw [winPctCol_getElem?_succ _ j (by rw [hps]; exact h)]
      rw [List.map_take]
      simp
  · cases i with
    | zero => rw [avgPdCol_getElem?_zero _ (by rw [hpds]; exact h)]; rfl
    | succ j =>
      rw [avgPdCol_getElem?_succ _ j (by rw [hpds]; exact h)]
      rw [List.map_take]
      simp
  · cases i with
    | zero => rw [avgPd5Col_getElem?_zero _ (by rw [hpds]; exact h)]; rfl
    | succ j =>
      rw [avgPd5Col_getElem?_succ _ j (by rw [hpds]; exact h)]
      rw [List.map_drop, List.map_take]
      rfl

/-! ## Stable sort and filter -/

theorem orderedInsert_of_forall {α : Type} (r : α → α → Prop) [DecidableRel r]
    (x : α) (m : List α) (hm : ∀ z ∈ m, r x z) :
    m.orderedInsert r x = x :: m := by
  cases m with
  | nil => rfl
  | cons b l => rw [List.orderedInsert, if_pos (hm b (List.mem_cons_self b l))]

theorem filter_orderedInsert {α : Type} (r : α → α → Prop) [DecidableRel r]
    [IsTrans α r] (p : α → Bool) (x : α) :
    ∀ l : List α, l.Sorted r →
      (l.orderedInsert r x).filter p =
        if p x then (l.filter p).orderedInsert r x else l.filter p := by
  intro l
  induction l with
  | nil =>
    intro _
    by_cases hp : p x <;> simp [List.orderedInsert, List.filter_cons, hp]
  | cons y ys ih =>
    intro hl
    have hys : ys.Sorted r := hl.of_cons
    have hally : ∀ b ∈ ys, r y b := List.rel_of_sorted_cons hl
    by_cases hxy : r x y
    · rw [List.orderedInsert, if_pos hxy]
      by_cases hp : p x
      · rw [if_pos hp, List.filter_cons_of_pos hp]
        rw [orderedInsert_of_forall r x ((y :: ys).filter p) ?hall]
        case hall =>
          intro z hz
          have hzm : z ∈ y :: ys := List.mem_of_mem_filter hz
          rcases List.mem_cons.1 hzm with rfl | hzys
          · exact hxy
          · exact IsTrans.trans x y z hxy (hally z hzys)
      · rw [if_neg hp, List.filter_cons_of_neg hp]
    · rw [List.orderedInsert, if_neg hxy]
      by_cases hpy : p y
      · rw [List.filter_cons_of_pos hpy, ih hys, List.filter_cons_of_pos hpy]
        by_cases hp : p x
        · rw [if_pos hp, if_pos hp, List.orderedInsert, if_neg hxy]
        · rw [if_neg hp, if_neg hp]
      · rw [List.filter_cons_of_neg hpy, ih hys, List.filter_cons_of_neg hpy]

theorem filter_insertionSort {α : Type} (r : α → α → Prop) [DecidableRel r]
    [IsTotal α r] [IsTrans α r] (p : α → Bool) (l : List α) :
    (l.insertionSort r).filter p = (l.filter p).insertionSort r := by
  induction l with
  | nil => rfl
  | cons x xs ih =>
    rw [List.insertionSort,
      filter_orderedInsert r p x _ (List.sorted_insertionSort r xs), ih]
    by_cases hp : p x
    · rw [if_pos hp, List.filter_cons_of_pos hp, List.insertionSort]
    · rw [if_neg hp, List.filter_cons_of_neg hp]

/-- Season isolation: the per-team season sequence computed from the whole
table equals the one computed from the season's rows alone. -/
theorem teamGames_season_isolated (games : List Game) (s : Int) (t : String) :
    teamGames games s t =
      teamGames (games.filter (fun g => decide (g.season = s))) s t := by
  rw [teamGames, teamGames,
    ← filter_insertionSort gameLE (fun g => decide (g.season = s)) games,
    List.filter_filter]
  simp

/-! ## Claims about the rollup -/

/-- C1: every rollup feature attributed to team `t` at its `i`-th season game
is a function only of the strictly prior games of that team in that season:
two tables that agree on that prior prefix give the same feature record
(in particular the game's own outcome is irrelevant), and rows of other
seasons never enter the team sequence at all. -/
theorem c1_no_lookahead :
    (∀ (games games' : List Game) (s : Int) (t : String) (i : Nat),
      (teamGames games s t).take i = (teamGames games' s t).take i →
      i < (teamGames games s t).length → i < (teamGames games' s t).length →
      (teamFeatures games s t)[i]? = (teamFeatures games' s t)[i]?) ∧
    (∀ (games : List Game) (s : Int) (t : String),
      teamGames games s t =
        teamGames (games.filter (fun g => decide (g.season = s))) s t) := by
  refine ⟨fun games games' s t i hpre h h' => ?_, teamGames_season_isolated⟩
  rw [teamFeatures_getElem? games s t i h,
    teamFeatures_getElem? games' s t i h', hpre]

/-- Example season of five games of team "A": three wins, then two losses. -/
def demoGames : List Game :=
  [⟨1, 0, "A", "B", 100, 90⟩, ⟨2, 0, "A", "B", 95, 80⟩,
   ⟨3, 0, "B", "A", 70, 75⟩, ⟨4, 0, "A", "B", 85, 95⟩,
   ⟨5, 0, "B", "A", 101, 92⟩]

/-- Variant sharing only the first two games with `demoGames`. -/
def demoGamesAlt : List Game :=
  [⟨1, 0, "A", "B", 100, 90⟩, ⟨2, 0, "A", "B", 95, 80⟩,
   ⟨6, 0, "B", "A", 99, 98⟩]

theorem c1_no_lookahead_witness :
    (teamFeatures demoGames 0 "A")[2]? = (teamFeatures demoGamesAlt 0 "A")[2]? :=
  c1_no_lookahead.1 demoGames demoGamesAlt 0 "A" 2 (by decide) (by decide)
    (by decide)

/-- C2: the streak emitted at game `i` is the state carried into the game by
the fold of `streakStep` from `0` over the strictly prior performances, and a
team winning its first three games then losing the fourth shows the column
[0, 1, 2, 3] entering games 1-4 and -1 entering game 5. -/
theorem c2_streak_state_machine :
    (∀ (games : List Game) (s : Int) (t : String) (i : Nat),
      i < (teamGames games s t).length →
      ((teamFeatures games s t)[i]?).map TeamMetrics.streak =
        some ((((teamGames games s t).take i).map
          (fun g => performance g t)).foldl streakStep 0)) ∧
    (teamFeatures demoGames 0 "A").map TeamMetrics.streak = [0, 1, 2, 3, -1] := by
  refine ⟨fun games s t i h => ?_, by decide⟩
  rw [teamFeatures_getElem? games s t i h]
  rfl

theorem c2_streak_state_machine_witness :
    ((teamFeatures demoGames 0 "A")[2]?).map TeamMetrics.streak = some 2 := by
  have h := c2_streak_state_machine.1 demoGames 0 "A" 2 (by decide)
  rw [h]
  decide

/-- C3: with fewer than five prior games, `avg_point_diff_last_5` is filled
with 0 (full-window policy) while `last_5_games_result` sums exactly the
available strictly prior performances (partial-window policy). -/
theorem c3_window_asymmetry (games : List Game) (s : Int) (t : String)
    (i : Nat) (h : i < (teamGames games s t).length) (h5 : i < 5) :
    ((teamFeatures games s t)[i]?).map
        (fun m => (m.avgPointDiffLast5, m.last5)) =
      some (0, (((teamGames games s t).take i).map
        (fun g => performance g t)).sum) := by
  rw [teamFeatures_getElem? games s t i h]
  have hd : i - 5 = 0 := by omega
  have h5' : ¬ 5 ≤ i := by omega
  simp [hd, h5']

theorem c3_window_asymmetry_witness :
    ((teamFeatures demoGames 0 "A")[3]?).map
        (fun m => (m.avgPointDiffLast5, m.last5)) = some (0, 3) := by
  have h := c3_window_asymmetry demoGames 0 "A" 3 (by decide) (by decide)
  rw [h]
  decide

/-- C4: at a team's first game of a season the features are streak 0,
win_pct null, last_5 0, avg_point_diff 0, avg_point_diff_last_5 0; at every
later game win_pct is the arithmetic mean of the strictly prior ±1
performances. -/
theorem c4_first_game_defaults :
    (∀ (games : List Game) (s : Int) (t : String),
      0 < (teamGames games s t).length →
      (teamFeatures games s t)[0]? = some
        { last5 := 0, streak := 0, winPct := none,
          avgPointDiff := 0, avgPointDiffLast5 := 0 }) ∧
    (∀ (games : List Game) (s : Int) (t : String) (i : Nat), 1 ≤ i →
      i < (teamGames games s t).length →
      ((teamFeatures games s t)[i]?).map TeamMetrics.winPct =
        some (some (meanI (((teamGames games s t).take i).map
          (fun g => performance g t))))) := by
  constructor
  · intro games s t h
    rw [teamFeatures_getElem? games s t 0 h]
    rfl
  · intro games s t i h1 h
    rw [teamFeatures_getElem? games s t i h]
    have h0 : i ≠ 0 := by omega
    simp [h0]

theorem c4_first_game_defaults_witness :
    (teamFeatures demoGames 0 "A")[0]? = some
      { last5 := 0, streak := 0, winPct := none,
        avgPointDiff := 0, avgPointDiffLast5 := 0 } ∧
    ((teamFeatures demoGames 0 "A")[1]?).map TeamMetrics.winPct =
      some (some 1) := by
  constructor
  · exact c4_first_game_defaults.1 demoGames 0 "A" (by decide)
  · have h := c4_first_game_defaults.2 demoGames 0 "A" 1 (by decide) (by decide)
    rw [h, show ((teamGames demoGames 0 "A").take 1).map
      (fun g => performance g "A") = [1] from by decide]
    norm_num [meanI]

/-- C10: a drawn game (equal scores) makes `is_win` false for both the home
and the away team and `performance` equal to -1 for both, i.e. the draw is
fed into every downstream streak, win_pct and last-5 feature as a loss for
both participants. -/
theorem c10_draw_counts_as_loss (g : Game) (hdraw : g.homeScore = g.awayScore) :
    isWin g g.home = false ∧ isWin g g.away = false ∧
    performance g g.home = -1 ∧ performance g g.away = -1 := by
  have h1 : isWin g g.home = false := by simp [isWin, hdraw]
  have h2 : isWin g g.away = false := by simp [isWin, hdraw]
  exact ⟨h1, h2, by simp [performance, h1], by simp [performance, h2]⟩

theorem c10_draw_counts_as_loss_witness :
    isWin ⟨1, 0, "A", "B", 100, 100⟩ "A" = false ∧
    isWin ⟨1, 0, "A", "B", 100, 100⟩ "B" = false ∧
    performance ⟨1, 0, "A", "B", 100, 100⟩ "A" = -1 ∧
    performance ⟨1, 0, "A", "B", 100, 100⟩ "B" = -1 :=
  c10_draw_counts_as_loss ⟨1, 0, "A", "B", 100, 100⟩ rfl

/-! ## `_calculate_days_since_last_game` -/

/-- Appearance dates of team `t` in season `s`: the home-side and away-side
projections of the table are concatenated, per `pd.concat([home_df, away_df])`,
sorted chronologically per team, per `sort_values(["team", "game_datetime"])`,
within the season partition of the loop. -/
def teamSeasonDates (games : List Game) (t : String) (s : Int) : List Int :=
  (((games.filter (fun g => decide (g.season = s) && decide (g.home = t))).map
      Game.date) ++
    ((games.filter (fun g => decide (g.season = s) && decide (g.away = t))).map
      Game.date)).insertionSort (fun a b => a ≤ b)

/-- Models `groupby("team")["game_datetime"].diff().dt.days` on one team's
chronological season appearances: each date is paired with the day difference
to the previous appearance carried in, `none` at the first. -/
def withPrev : Option Int → List Int → List (Int × Option Int)
  | _, [] => []
  | prev, d :: rest => (d, prev.map (fun p => d - p)) :: withPrev (some d) rest

/-- Models the left merge of the diff result back onto the game table on the
key (game_datetime, season, team): the diff entry stored for date `d`, null
when the key is absent. -/
def daysSinceLastGame (games : List Game) (t : String) (s : Int) (d : Int) :
    Option Int :=
  ((withPrev none (teamSeasonDates games t s)).lookup d).join

/-- Row-level output of `_calculate_days_since_last_game`: the columns
`days_since_last_game_home`, `days_since_last_game_away` and
`rest_diff_hv = home - away` (NaN propagates through the subtraction). -/
def restRow (games : List Game) (g : Game) :
    Option Int × Option Int × Option Int :=
  let h := daysSinceLastGame games g.home g.season g.date
  let a := daysSinceLastGame games g.away g.season g.date
  (h, a, match h, a with
    | some x, some y => some (x - y)
    | _, _ => none)

theorem lookup_withPrev_aux (l : List Int) (hl : l.Sorted (· < ·)) :
    ∀ prev : Option Int, (∀ p, prev = some p → ∀ x ∈ l, p < x) →
      ∀ d ∈ l, ((withPrev prev l).lookup d).join =
        ((prev.toList ++ l.filter (fun x => decide (x < d))).max?).map
          (fun p => d - p) := by
  induction l with
  | nil => intro prev _ d hd; simp at hd
  | cons x rest ih =>
    intro prev hprev d hd
    have hrest : rest.Sorted (· < ·) := hl.of_cons
    have hallx : ∀ b ∈ rest, x < b := List.rel_of_sorted_cons hl
    rw [withPrev]
    rcases List.mem_cons.1 hd with rfl | hdrest
    · rw [List.lookup_cons]
      simp only [beq_self_eq_true]
      have hfilter : (d :: rest).filter (fun y => decide (y < d)) = [] := by
        rw [List.filter_eq_nil_iff]
        intro y hy
        rcases List.mem_cons.1 hy with rfl | hyrest
        · simp
        · simp only [decide_eq_true_eq]
          exact not_lt_of_gt (hallx y hyrest)
      rw [hfilter, List.append_nil]
      cases prev with
      | none => simp
      | some p => simp [List.max?_cons']
    · have hdx : x < d := hallx d hdrest
      rw [List.lookup_cons]
      have hne : (d == x) = false := beq_eq_false_iff_ne.2 (ne_of_gt hdx)
      simp only [hne]
      rw [ih hrest (some x)
        (fun p hp y hy => by cases hp; exact hallx y hy) d hdrest]
      rw [List.filter_cons_of_pos (by simpa using hdx)]
      simp only [Option.toList, List.singleton_append]
      congr 1
      cases prev with
      | none => simp
      | some p =>
        have hpx : p < x := hprev p rfl x (List.mem_cons_self _ _)
        simp only [Option.toList, List.singleton_append]
        rw [List.max?_cons', List.max?_cons', List.foldl_cons,
          max_eq_right (le_of_lt hpx)]

theorem lookup_withPrev (l : List Int) (hl : l.Sorted (· < ·)) (d : Int)
    (hd : d ∈ l) :
    ((withPrev none l).lookup d).join =
      ((l.filter (fun x => decide (x < d))).max?).map (fun p => d - p) := by
  have h := lookup_withPrev_aux l hl none (fun p hp => nomatch hp) d hd
  simpa using h

theorem teamSeasonDates_sorted_lt (games : List Game) (t : String) (s : Int)
    (hnd : (teamSeasonDates games t s).Nodup) :
    (teamSeasonDates games t s).Sorted (· < ·) := by
  have hle : (teamSeasonDates games t s).Sorted (fun a b : Int => a ≤ b) :=
    List.sorted_insertionSort _ _
  exact (hle.and hnd).imp (fun h => lt_of_le_of_ne h.1 h.2)

theorem mem_teamSeasonDates_home (games : List Game) (g : Game)
    (hg : g ∈ games) : g.date ∈ teamSeasonDates games g.home g.season := by
  rw [teamSeasonDates, List.mem_insertionSort]
  exact List.mem_append_left _
    (List.mem_map_of_mem Game.date (List.mem_filter.2 ⟨hg, by simp⟩))

theorem mem_teamSeasonDates_away (games : List Game) (g : Game)
    (hg : g ∈ games) : g.date ∈ teamSeasonDates games g.away g.season := by
  rw [teamSeasonDates, List.mem_insertionSort]
  exact List.mem_append_right _
    (List.mem_map_of_mem Game.date (List.mem_filter.2 ⟨hg, by simp⟩))

/-- C5: on a table where each team's appearance dates within a season are
distinct, `days_since_last_game_home` (resp. `_away`) of a game is the day
difference to the team's latest strictly earlier appearance of the same
season — null when none exists, i.e. at the team's first appearance — and
`rest_diff_hv` is home minus away, null exactly when either side is null. -/
theorem c5_rest_days (games : List Game) (g : Game) (hg : g ∈ games)
    (hh : (teamSeasonDates games g.home g.season).Nodup)
    (ha : (teamSeasonDates games g.away g.season).Nodup) :
    ((restRow games g).1 = (((teamSeasonDates games g.home g.season).filter
        (fun x => decide (x < g.date))).max?).map (fun p => g.date - p)) ∧
    ((restRow games g).2.1 = (((teamSeasonDates games g.away g.season).filter
        (fun x => decide (x < g.date))).max?).map (fun p => g.date - p)) ∧
    (∀ x y : Int, (restRow games g).1 = some x →
      (restRow games g).2.1 = some y →
      (restRow games g).2.2 = some (x - y)) ∧
    ((restRow games g).2.2 = none ↔
      (restRow games g).1 = none ∨ (restRow games g).2.1 = none) := by
  have hmatch : (restRow games g).2.2 =
      match (restRow games g).1, (restRow games g).2.1 with
      | some x, some y => some (x - y)
      | _, _ => none := rfl
  refine ⟨?_, ?_, ?_, ?_⟩
  · rw [show (restRow games g).1 =
        daysSinceLastGame games g.home g.season g.date from rfl,
      daysSinceLastGame,
      lookup_withPrev _ (teamSeasonDates_sorted_lt games g.home g.season hh)
        g.date (mem_teamSeasonDates_home games g hg)]
  · rw [show (restRow games g).2.1 =
        daysSinceLastGame games g.away g.season g.date from rfl,
      daysSinceLastGame,
      lookup_withPrev _ (teamSeasonDates_sorted_lt games g.away g.season ha)
        g.date (mem_teamSeasonDates_away games g hg)]
  · intro x y hx hy
    rw [hmatch, hx, hy]
  · rw [hmatch]
    rcases (restRow games g).1 with _ | x <;>
      rcases (restRow games g).2.1 with _ | y <;> simp

/-- Table for the C5 witness: team "A" plays on days 1 and 3, team "C" only
on day 3. -/
def restDemoGames : List Game :=
  [⟨1, 0, "A", "B", 100, 90⟩, ⟨3, 0, "A", "C", 80, 85⟩]

theorem c5_rest_days_witness :
    (restRow restDemoGames ⟨3, 0, "A", "C", 80, 85⟩).1 = some 2 ∧
    (restRow restDemoGames ⟨3, 0, "A", "C", 80, 85⟩).2.1 = none ∧
    (restRow restDemoGames ⟨3, 0, "A", "C", 80, 85⟩).2.2 = none := by
  have h := c5_rest_days restDemoGames ⟨3, 0, "A", "C", 80, 85⟩
    (by decide) (by decide) (by decide)
  exact ⟨h.1.trans (by decide), h.2.1.trans (by decide),
    h.2.2.2.mpr (Or.inr (h.2.1.trans (by decide)))⟩

end NBA
